import Mathlib

/-!
Shallow embedding of the core of the `knoll` display-configuration tool
(configuration data model, validator, group resolver, mode selector, and the
fake/real display-configuration transactions), together with theorems that
settle the specification claims against it.

Modelling conventions:
* Rust `String` becomes Lean `String`; `usize`/`u32` become `Nat`; `i64`
  becomes `Int`.
* `f32` brightness values are modelled as `Rat`: the source only ever
  compares brightness against the literals `0.0` and `1.0`, and on such
  non-NaN values IEEE comparison agrees with the rational order.
* `BTreeSet<String>` becomes `Finset String`; `HashMap`/`BTreeMap` become
  association lists (`List (key × value)`) with unique keys; the display
  snapshot consulted by the group resolver is modelled by its key set, since
  the resolver only uses `contains_key`, `len` and `keys`.
* Serialization used purely for error diagnostics (`serialize_to_string`)
  is modelled by carrying the serialized value itself, since serializing
  these plain record types cannot fail.
-/

/-- Model of `displays::Point` (also used for extents). -/
structure Point where
  x : Int
  y : Int
deriving DecidableEq

/-- Model of `displays::Rotation`. -/
inductive Rotation
  | zero
  | ninety
  | oneEighty
  | twoSeventy
deriving DecidableEq

/-- Model of `config::Config`: one display's desired state. -/
structure Config where
  uuid : String
  mirror_of : Option String := none
  enabled : Option Bool := none
  origin : Option Point := none
  extents : Option Point := none
  scaled : Option Bool := none
  frequency : Option Nat := none
  color_depth : Option Nat := none
  rotation : Option Rotation := none
  brightness : Option Rat := none
deriving DecidableEq

/-- Model of `config::ConfigGroup`. -/
structure ConfigGroup where
  configs : List Config
deriving DecidableEq

/-- Model of `config::ConfigGroups`. -/
structure ConfigGroups where
  groups : List ConfigGroup
deriving DecidableEq

/-- Decidable equality for `Except`, so that concrete runs of the embedded
fallible functions can be checked by `decide`. -/
instance {ε α : Type} [DecidableEq ε] [DecidableEq α] : DecidableEq (Except ε α) := fun x y =>
  match x, y with
  | .ok a, .ok b =>
    if h : a = b then isTrue (by rw [h]) else isFalse (by intro hc; cases hc; exact h rfl)
  | .ok _, .error _ => isFalse (by intro hc; cases hc)
  | .error _, .ok _ => isFalse (by intro hc; cases hc)
  | .error e, .error f =>
    if h : e = f then isTrue (by rw [h]) else isFalse (by intro hc; cases hc; exact h rfl)

/-- Generic association-list lookup, modelling `HashMap::get` /
`BTreeMap::get` on maps represented as lists with unique keys. -/
def assocFind {α β : Type} [DecidableEq α] : List (α × β) → α → Option β
  | [], _ => none
  | (k, v) :: rest, u => if k = u then some v else assocFind rest u

/-- Model of `valid_config::ValidConfigGroup`: the UUID set of a group plus
the map from UUID to its `Config`. -/
structure ValidConfigGroup where
  uuids : Finset String
  configs : List (String × Config)
deriving DecidableEq

/-- Model of `valid_config::Error`. -/
inductive VError
  | DuplicateDisplays (uuids : Finset String)
  | DuplicateGroups (groups : List ValidConfigGroup)
  | EmptyGroup
  | InvalidMirrorConfig (uuid : String)
  | MirrorOfMirror (uuid target_uuid : String)
deriving DecidableEq

/-- The mirror-compatibility test from `ValidConfigGroup::from`: `mirror_of`
is set together with at least one geometry/mode/rotation option. -/
def Config.invalidMirror (c : Config) : Bool :=
  c.mirror_of.isSome &&
    (c.origin.isSome || c.extents.isSome || c.scaled.isSome ||
      c.frequency.isSome || c.color_depth.isSome || c.rotation.isSome)

/-- The `for config in cg.configs` loop of `ValidConfigGroup::from`,
accumulating the duplicate set and the UUID-to-config map. -/
def fromLoop : List Config → Finset String → List (String × Config) →
    Except VError (Finset String × List (String × Config))
  | [], dups, cfgs => .ok (dups, cfgs)
  | c :: rest, dups, cfgs =>
    if c.invalidMirror then .error (.InvalidMirrorConfig c.uuid)
    else if (assocFind cfgs c.uuid).isSome then
      fromLoop rest (insert c.uuid dups) cfgs
    else
      fromLoop rest dups (cfgs ++ [(c.uuid, c)])

/-- The mirror-of-mirror scan of `ValidConfigGroup::from`: the first display
that mirrors a display which itself has `mirror_of` set. -/
def mirrorOfMirror (cfgs : List (String × Config)) : Option (String × String) :=
  cfgs.findSome? fun p =>
    match p.2.mirror_of with
    | some target_uuid =>
      match assocFind cfgs target_uuid with
      | some target_config =>
        if target_config.mirror_of.isSome then some (p.1, target_uuid) else none
      | none => none
    | none => none

/-- Model of `ValidConfigGroup::from` (named `fromGroup` because `from` is a
Lean keyword). -/
def ValidConfigGroup.fromGroup (cg : ConfigGroup) : Except VError ValidConfigGroup :=
  match fromLoop cg.configs ∅ [] with
  | .error e => .error e
  | .ok (duplicates, configs) =>
    if duplicates ≠ ∅ then .error (.DuplicateDisplays duplicates)
    else if configs = [] then .error .EmptyGroup
    else
      match mirrorOfMirror configs with
      | some (uuid, target_uuid) => .error (.MirrorOfMirror uuid target_uuid)
      | none => .ok ⟨(configs.map Prod.fst).toFinset, configs⟩

/-- Model of `ValidConfigGroup::partial_cmp`: reverse inclusion, with
descending size as the tie-break for incomparable UUID sets. -/
def vcgCompare (a b : ValidConfigGroup) : Ordering :=
  if b.uuids ⊆ a.uuids then
    if a.uuids ⊆ b.uuids then .eq else .lt
  else if a.uuids ⊆ b.uuids then .gt
  else compare b.uuids.card a.uuids.card

/-- The `Vec::sort` call of `validate_config_groups`: Rust's stable sort
driven by `lt` derived from `partial_cmp`, modelled as a merge sort with
`le a b` iff `partial_cmp a b` is not `Greater`. -/
def sortVCG (l : List ValidConfigGroup) : List ValidConfigGroup :=
  l.mergeSort fun a b => vcgCompare a b != Ordering.gt

/-- Membership test of the `valid_groups` hash set: `ValidConfigGroup`
equality in the source is equality of the UUID sets. -/
def containsByUuids (l : List ValidConfigGroup) (v : ValidConfigGroup) : Bool :=
  l.any fun w => w.uuids = v.uuids

/-- Insertion into the `duplicate_groups` hash set (deduplicated by the
UUID-set equality). -/
def insertByUuids (l : List ValidConfigGroup) (v : ValidConfigGroup) : List ValidConfigGroup :=
  if containsByUuids l v then l else l ++ [v]

/-- The `for config_group in cgs.groups` loop of `validate_config_groups`,
accumulating the duplicate groups and the valid groups. -/
def validateLoop : List ConfigGroup → List ValidConfigGroup → List ValidConfigGroup →
    Except VError (List ValidConfigGroup × List ValidConfigGroup)
  | [], duplicate_groups, valid_groups => .ok (duplicate_groups, valid_groups)
  | cg :: rest, duplicate_groups, valid_groups =>
    match ValidConfigGroup.fromGroup cg with
    | .error e => .error e
    | .ok valid_group =>
      if containsByUuids valid_groups valid_group then
        validateLoop rest (insertByUuids duplicate_groups valid_group) valid_groups
      else
        validateLoop rest duplicate_groups (valid_groups ++ [valid_group])

/-- Model of `valid_config::validate_config_groups`. -/
def validate_config_groups (cgs : ConfigGroups) : Except VError (List ValidConfigGroup) :=
  match validateLoop cgs.groups [] [] with
  | .error e => .error e
  | .ok (duplicate_groups, valid_groups) =>
    if duplicate_groups ≠ [] then .error (.DuplicateGroups duplicate_groups)
    else .ok (sortVCG valid_groups)

/-- Model of `fake_displays::FakeDisplayMode`. -/
structure FakeDisplayMode where
  uuid : String
  scaled : Bool
  color_depth : Nat
  frequency : Nat
  extents : Point
deriving DecidableEq

/-- Model of `displays::DisplayModePattern`. -/
structure DisplayModePattern where
  scaled : Option Bool
  color_depth : Option Nat
  frequency : Option Nat
  extents : Option Point
deriving DecidableEq

/-- Model of the `DisplayMode::match_pattern` default method: every field the
pattern sets must agree with the mode (unset fields match anything). -/
def FakeDisplayMode.match_pattern (m : FakeDisplayMode) (pattern : DisplayModePattern) : Bool :=
  pattern.scaled.all (fun s => s = m.scaled) &&
    pattern.color_depth.all (fun d => d = m.color_depth) &&
    pattern.frequency.all (fun f => f = m.frequency) &&
    pattern.extents.all (fun p => p = m.extents)

/-- Model of `fake_displays::FakeDisplay`, the in-repo `Display` instance. -/
structure FakeDisplay where
  uuid : String
  mirrored_display : Option String
  enabled : Bool
  origin : Point
  rotation : Rotation
  mode : FakeDisplayMode
  modes : List FakeDisplayMode
  brightness : Option Rat
deriving DecidableEq

/-- Model of `Display::possible_modes` for `FakeDisplay`. -/
def FakeDisplay.possible_modes (d : FakeDisplay) : List FakeDisplayMode :=
  d.modes

/-- Model of the `Display::matching_modes` default method. -/
def FakeDisplay.matching_modes (d : FakeDisplay) (pattern : DisplayModePattern) :
    List FakeDisplayMode :=
  d.possible_modes.filter fun m => m.match_pattern pattern

/-- Model of `knoll::mode_pattern_from_config`. -/
def mode_pattern_from_config (config : Config) : DisplayModePattern :=
  { scaled := config.scaled
    color_depth := config.color_depth
    frequency := config.frequency
    extents := config.extents }

/-- Model of the `knoll::Error` constructors the embedded functions produce.
Serialized diagnostic strings are modelled by the serialized values, and the
`unwrap()` in `find_most_precise_config_group` by `UnwrapPanic`. -/
inductive KError
  | NoMatchingConfigGroup (uuids : List String)
  | AmbiguousConfigGroup (groups : List (List Config))
  | NoMatchingDisplayMode (uuid : String) (config : Config)
  | AmbiguousDisplayMode (uuid : String) (modes : List FakeDisplayMode)
  | UnwrapPanic
deriving DecidableEq

/-- Model of `knoll::select_mode` at the in-repo `FakeDisplay` instance (the
`format` argument only feeds diagnostic serialization and is dropped). -/
def select_mode (display : FakeDisplay) (config : Config) :
    Except KError FakeDisplayMode :=
  let pattern := mode_pattern_from_config config
  let modes := display.matching_modes pattern
  if modes.length > 1 then
    .error (.AmbiguousDisplayMode display.uuid modes)
  else
    match modes.getLast? with
    | some mode => .ok mode
    | none => .error (.NoMatchingDisplayMode display.uuid config)

/-- The `for valid_group in vcgs` loop of `find_most_precise_config_group`,
threading the `(matching, best_len)` accumulator.  `attached` is the key set
of the display snapshot. -/
def fmpLoop (attached : Finset String) :
    List ValidConfigGroup → List ValidConfigGroup × Nat → List ValidConfigGroup × Nat
  | [], acc => acc
  | valid_group :: rest, (matching, best_len) =>
    let group_len := valid_group.uuids.card
    if group_len ≤ attached.card ∧ best_len ≤ group_len ∧ valid_group.uuids ⊆ attached then
      if best_len < group_len then
        fmpLoop attached rest ([valid_group], group_len)
      else
        fmpLoop attached rest (matching ++ [valid_group], best_len)
    else
      fmpLoop attached rest (matching, best_len)

/-- Model of `knoll::find_most_precise_config_group`.  The display snapshot
is modelled by its attached UUID set (the function only uses `contains_key`,
`len` and `keys` of the map); diagnostics carry values instead of serialized
strings. -/
def find_most_precise_config_group (vcgs : List ValidConfigGroup)
    (attached : Finset String) : Except KError ValidConfigGroup :=
  let result := fmpLoop attached vcgs ([], 0)
  let matching := result.1
  let best_len := result.2
  if best_len = 0 then
    .error (.NoMatchingConfigGroup (attached.sort (· ≤ ·)))
  else if matching.length > 1 then
    .error (.AmbiguousConfigGroup (matching.map fun vcg => vcg.configs.map Prod.snd))
  else
    match matching.getLast? with
    | some vcg => .ok vcg
    | none => .error .UnwrapPanic

/-- Model of `displays::Error`, extended with the `InvalidBrightness` variant
constructed by `fake_displays::set_brightness` (the snapshot's `displays.rs`
predates that variant) and with `PanicModeMismatch` standing for the `panic!`
in `FakeDisplayConfigTransaction::set_mode`. -/
inductive DisplaysError
  | UnknownUUID (uuid : String)
  | DuplicateConfiguration (uuid : String)
  | InvalidTransactionState
  | Poisoned (msg : String)
  | Internal (msg : String)
  | InvalidBrightness (brightness : Rat)
  | PanicModeMismatch
deriving DecidableEq

/-- Model of `fake_displays::FakeDisplayEdit`. -/
inductive FakeDisplayEdit
  | SetMode (mode : FakeDisplayMode)
  | SetRotation (rotation : Rotation)
  | SetOrigin (origin : Point)
  | SetEnabled (enabled : Bool)
  | SetMirroredDisplay (mirror_uuid : Option String)
  | SetBrightness (brightness : Rat)
deriving DecidableEq

/-- Model of `fake_displays::FakeDisplayConfigTransaction`. -/
structure FakeDisplayConfigTransaction where
  dropped : Bool
  edit_map : List (String × List FakeDisplayEdit)
deriving DecidableEq

/-- Model of `FakeDisplayConfigTransaction::record_edit`: push the edit onto
the display's edit list, or fail on a dropped transaction or unknown UUID. -/
def FakeDisplayConfigTransaction.record_edit (t : FakeDisplayConfigTransaction)
    (uuid : String) (edit : FakeDisplayEdit) :
    Except DisplaysError FakeDisplayConfigTransaction :=
  if t.dropped then .error .InvalidTransactionState
  else
    match assocFind t.edit_map uuid with
    | some _ =>
      .ok { t with
              edit_map := t.edit_map.map fun p =>
                if p.1 = uuid then (p.1, p.2 ++ [edit]) else p }
    | none => .error (.UnknownUUID uuid)

/-- Model of the fake transaction's `set_mirroring`. -/
def FakeDisplayConfigTransaction.set_mirroring (t : FakeDisplayConfigTransaction)
    (uuid : String) (mirror_uuid : Option String) :
    Except DisplaysError FakeDisplayConfigTransaction :=
  t.record_edit uuid (.SetMirroredDisplay mirror_uuid)

/-- Model of the fake transaction's `set_mode` (the `panic!` on a mode for a
different display becomes the `PanicModeMismatch` error). -/
def FakeDisplayConfigTransaction.set_mode (t : FakeDisplayConfigTransaction)
    (uuid : String) (mode : FakeDisplayMode) :
    Except DisplaysError FakeDisplayConfigTransaction :=
  if mode.uuid ≠ uuid then .error .PanicModeMismatch
  else t.record_edit uuid (.SetMode mode)

/-- Model of the fake transaction's `set_rotation`: it merely records the
edit, with no duplicate check. -/
def FakeDisplayConfigTransaction.set_rotation (t : FakeDisplayConfigTransaction)
    (uuid : String) (rotation : Rotation) :
    Except DisplaysError FakeDisplayConfigTransaction :=
  t.record_edit uuid (.SetRotation rotation)

/-- Model of the fake transaction's `set_origin`. -/
def FakeDisplayConfigTransaction.set_origin (t : FakeDisplayConfigTransaction)
    (uuid : String) (point : Point) :
    Except DisplaysError FakeDisplayConfigTransaction :=
  t.record_edit uuid (.SetOrigin point)

/-- Model of the fake transaction's `set_enabled`. -/
def FakeDisplayConfigTransaction.set_enabled (t : FakeDisplayConfigTransaction)
    (uuid : String) (enabled : Bool) :
    Except DisplaysError FakeDisplayConfigTransaction :=
  t.record_edit uuid (.SetEnabled enabled)

/-- Model of the fake transaction's `set_brightness`: the range check runs
before `record_edit`. -/
def FakeDisplayConfigTransaction.set_brightness (t : FakeDisplayConfigTransaction)
    (uuid : String) (brightness : Rat) :
    Except DisplaysError FakeDisplayConfigTransaction :=
  if brightness < 0 ∨ brightness > 1 then .error (.InvalidBrightness brightness)
  else t.record_edit uuid (.SetBrightness brightness)

/-- Model of `FakeDisplay::apply_edit` (its `assert!`s are test-harness
checks on inputs `commit` never produces and are elided). -/
def FakeDisplay.apply_edit (d : FakeDisplay) : FakeDisplayEdit → FakeDisplay
  | .SetMode mode => { d with mode := mode }
  | .SetRotation rotation => { d with rotation := rotation }
  | .SetOrigin origin => { d with origin := origin }
  | .SetEnabled enabled => { d with enabled := enabled }
  | .SetMirroredDisplay mirror_uuid => { d with mirrored_display := mirror_uuid }
  | .SetBrightness b => { d with brightness := some b }

/-- The edit-application loop of `FakeDisplayConfigTransaction::commit`,
walking the recorded per-display edit lists over the shared display map. -/
def commitApply : List (String × List FakeDisplayEdit) →
    List (String × FakeDisplay) → Except DisplaysError (List (String × FakeDisplay))
  | [], shared => .ok shared
  | (uuid, edits) :: rest, shared =>
    match assocFind shared uuid with
    | some _ =>
      commitApply rest (shared.map fun p =>
        if p.1 = uuid then (p.1, edits.foldl FakeDisplay.apply_edit p.2) else p)
    | none => .error (.UnknownUUID uuid)

/-- Model of `FakeDisplayConfigTransaction::commit`: the only operation that
writes the recorded edits back into the shared display state. -/
def FakeDisplayConfigTransaction.commit (t : FakeDisplayConfigTransaction)
    (shared : List (String × FakeDisplay)) :
    Except DisplaysError (List (String × FakeDisplay)) :=
  if t.dropped then .error .InvalidTransactionState
  else commitApply t.edit_map shared

/-- Model of `impl Drop for FakeDisplayConfigTransaction`: only marks the
transaction dropped. -/
def FakeDisplayConfigTransaction.dropTxn (t : FakeDisplayConfigTransaction) :
    FakeDisplayConfigTransaction :=
  { t with dropped := true }

/-- The edit operations a caller can issue against an open fake transaction. -/
inductive FakeOp
  | setMirroring (uuid : String) (mirror_uuid : Option String)
  | setMode (uuid : String) (mode : FakeDisplayMode)
  | setRotation (uuid : String) (rotation : Rotation)
  | setOrigin (uuid : String) (point : Point)
  | setEnabled (uuid : String) (enabled : Bool)
  | setBrightness (uuid : String) (brightness : Rat)
deriving DecidableEq

/-- Dispatch one edit operation to the corresponding transaction method. -/
def FakeDisplayConfigTransaction.applyOp (t : FakeDisplayConfigTransaction) :
    FakeOp → Except DisplaysError FakeDisplayConfigTransaction
  | .setMirroring uuid m => t.set_mirroring uuid m
  | .setMode uuid mode => t.set_mode uuid mode
  | .setRotation uuid rotation => t.set_rotation uuid rotation
  | .setOrigin uuid point => t.set_origin uuid point
  | .setEnabled uuid enabled => t.set_enabled uuid enabled
  | .setBrightness uuid b => t.set_brightness uuid b

/-- A fake-backend world: one transaction plus the shared display state
(`CURRENT_FAKE_DISPLAYS`). -/
structure FakeWorld where
  txn : FakeDisplayConfigTransaction
  shared : List (String × FakeDisplay)
deriving DecidableEq

/-- Run a sequence of edit operations against the world's transaction; a
failing edit leaves the transaction as it was (`record_edit` mutates nothing
on failure). -/
def runEdits : List FakeOp → FakeWorld → FakeWorld
  | [], w => w
  | op :: rest, w =>
    match w.txn.applyOp op with
    | .ok t' => runEdits rest { w with txn := t' }
    | .error _ => runEdits rest w

/-- Dropping the world's transaction without commit. -/
def FakeWorld.dropWorld (w : FakeWorld) : FakeWorld :=
  { w with txn := w.txn.dropTxn }

/-- Model of `real_displays::RealDisplayConfigTransaction`'s pure state: the
UUID-to-`DisplayID` map, the queued rotations, and the dropped flag (the
`CGDisplayConfigRef` is an opaque OS handle the rotation logic never reads). -/
structure RealDisplayConfigTransaction where
  displays : List (String × Nat)
  rotations : List (Nat × Rotation)
  dropped : Bool
deriving DecidableEq

/-- Model of `RealDisplayConfigTransaction::display_id`. -/
def RealDisplayConfigTransaction.display_id (t : RealDisplayConfigTransaction)
    (uuid : String) : Except DisplaysError Nat :=
  match assocFind t.displays uuid with
  | some id => .ok id
  | none => .error (.UnknownUUID uuid)

/-- Model of `RealDisplayConfigTransaction::set_rotation`: rejects a second
rotation request for the same display with `DuplicateConfiguration`. -/
def RealDisplayConfigTransaction.set_rotation (t : RealDisplayConfigTransaction)
    (uuid : String) (rotation : Rotation) :
    Except DisplaysError RealDisplayConfigTransaction :=
  if t.dropped then .error .InvalidTransactionState
  else
    match assocFind t.displays uuid with
    | none => .error (.UnknownUUID uuid)
    | some display_id =>
      if (assocFind t.rotations display_id).isSome then
        .error (.DuplicateConfiguration uuid)
      else
        .ok { t with rotations := t.rotations ++ [(display_id, rotation)] }

/-- Feasibility of a candidate group for the attached-display set: every UUID
it names is currently attached. -/
def feasibleB (attached : Finset String) (g : ValidConfigGroup) : Bool :=
  decide (g.uuids ⊆ attached)

/-- The maximum UUID-set size over the feasible groups of a list (`0` when
none is feasible). -/
def bestFeasibleLen (attached : Finset String) : List ValidConfigGroup → Nat
  | [] => 0
  | g :: rest =>
    if feasibleB attached g then Nat.max g.uuids.card (bestFeasibleLen attached rest)
    else bestFeasibleLen attached rest

/-- The feasible groups of a list whose UUID-set size is exactly `k`, in list
order. -/
def maxFeasibles (attached : Finset String) (k : Nat) (l : List ValidConfigGroup) :
    List ValidConfigGroup :=
  l.filter fun g => feasibleB attached g && (g.uuids.card == k)

/-- Helper: `assocFind` on an appended list consults the left part first. -/
theorem assocFind_append {α β : Type} [DecidableEq α] (l₁ l₂ : List (α × β)) (u : α) :
    assocFind (l₁ ++ l₂) u =
      match assocFind l₁ u with
      | some v => some v
      | none => assocFind l₂ u := by
  induction l₁ with
  | nil => simp [assocFind]
  | cons p rest ih =>
    obtain ⟨k, v⟩ := p
    by_cases h : k = u
    · simp [assocFind, h]
    · simp [assocFind, h, ih]

/-- Claim C8: for every sequence of edit operations recorded on a fake
display-configuration transaction, dropping the transaction without commit
leaves the shared display state exactly as it was. -/
theorem dropping_transaction_preserves_shared_state (ops : List FakeOp) (w : FakeWorld) :
    ((runEdits ops w).dropWorld).shared = w.shared := by
  induction ops generalizing w with
  | nil => rfl
  | cons op rest ih =>
    unfold runEdits
    cases w.txn.applyOp op with
    | ok t' => exact ih { w with txn := t' }
    | error e => exact ih w

/-- Claim C10: for an open fake transaction and a known UUID,
`set_brightness` fails with `InvalidBrightness` exactly when the brightness
lies outside `[0, 1]`, and otherwise records the edit. -/
theorem set_brightness_range_checked_at_transaction
    (t : FakeDisplayConfigTransaction) (uuid : String) (b : Rat)
    (hopen : t.dropped = false)
    (hknown : (assocFind t.edit_map uuid).isSome = true) :
    (t.set_brightness uuid b = .error (.InvalidBrightness b) ↔ (b < 0 ∨ b > 1)) ∧
    (¬(b < 0 ∨ b > 1) →
      t.set_brightness uuid b =
        .ok { t with edit_map := t.edit_map.map fun p =>
                if p.1 = uuid then (p.1, p.2 ++ [.SetBrightness b]) else p }) := by
  obtain ⟨v, hv⟩ := Option.isSome_iff_exists.mp hknown
  by_cases hb : b < 0 ∨ b > 1
  · refine ⟨?_, fun h => absurd hb h⟩
    simp [FakeDisplayConfigTransaction.set_brightness, hb]
  · have hrec : t.set_brightness uuid b =
        .ok { t with edit_map := t.edit_map.map fun p =>
                if p.1 = uuid then (p.1, p.2 ++ [.SetBrightness b]) else p } := by
      simp [FakeDisplayConfigTransaction.set_brightness, hb,
        FakeDisplayConfigTransaction.record_edit, hopen, hv]
    refine ⟨?_, fun _ => hrec⟩
    rw [hrec]
    simp [hb]

/-- Witness for claim C10 at a concrete open transaction, known UUID and the
out-of-range brightness `2`. -/
theorem set_brightness_range_witness :
    ((FakeDisplayConfigTransaction.set_brightness ⟨false, [("X", [])]⟩ "X" 2 =
        .error (.InvalidBrightness 2)) ↔ ((2 : Rat) < 0 ∨ (2 : Rat) > 1)) ∧
    (¬((2 : Rat) < 0 ∨ (2 : Rat) > 1) →
      FakeDisplayConfigTransaction.set_brightness ⟨false, [("X", [])]⟩ "X" 2 =
        .ok { dropped := false,
              edit_map := [("X", ([] : List FakeDisplayEdit))].map fun p =>
                if p.1 = "X" then (p.1, p.2 ++ [.SetBrightness 2]) else p }) :=
  set_brightness_range_checked_at_transaction ⟨false, [("X", [])]⟩ "X" 2 rfl (by decide)

/-- Claim C7 counterexample: on the fake backend a second `set_rotation` for
the same display within one open transaction succeeds (both edits are
recorded) instead of failing with a duplicate-configuration error. -/
theorem fake_set_rotation_accepts_duplicates :
    (FakeDisplayConfigTransaction.set_rotation ⟨false, [("X", [])]⟩ "X" Rotation.ninety =
      .ok ⟨false, [("X", [FakeDisplayEdit.SetRotation Rotation.ninety])]⟩) ∧
    (FakeDisplayConfigTransaction.set_rotation
        ⟨false, [("X", [FakeDisplayEdit.SetRotation Rotation.ninety])]⟩ "X"
        Rotation.oneEighty =
      .ok ⟨false, [("X", [FakeDisplayEdit.SetRotation Rotation.ninety,
                          FakeDisplayEdit.SetRotation Rotation.oneEighty])]⟩) ∧
    (FakeDisplayConfigTransaction.set_rotation
        ⟨false, [("X", [FakeDisplayEdit.SetRotation Rotation.ninety])]⟩ "X"
        Rotation.oneEighty ≠ .error (.DuplicateConfiguration "X")) :=
  ⟨by decide, by decide, by decide⟩

/-- Claim C7 amended: on the real backend, after one successful
`set_rotation` for a UUID, a second `set_rotation` for the same UUID in the
same transaction fails with `DuplicateConfiguration`. -/
theorem real_set_rotation_rejects_duplicate
    (t t' : RealDisplayConfigTransaction) (uuid : String) (r r' : Rotation)
    (h : t.set_rotation uuid r = .ok t') :
    t'.set_rotation uuid r' = .error (.DuplicateConfiguration uuid) := by
  unfold RealDisplayConfigTransaction.set_rotation at h ⊢
  cases hd : t.dropped with
  | true => simp [hd] at h
  | false =>
    simp only [hd, Bool.false_eq_true, if_false] at h
    cases hfind : assocFind t.displays uuid with
    | none => simp [hfind] at h
    | some display_id =>
      simp only [hfind] at h
      cases hrot : (assocFind t.rotations display_id).isSome with
      | true => simp [hrot] at h
      | false =>
        simp only [hrot, Bool.false_eq_true, if_false, Except.ok.injEq] at h
        subst h
        simp only [hd, Bool.false_eq_true, if_false, hfind]
        rw [assocFind_append]
        cases hcur : assocFind t.rotations display_id with
        | some v => rw [hcur] at hrot; simp at hrot
        | none => simp [assocFind]

/-- Witness for the amended claim C7 at a concrete real-backend transaction. -/
theorem real_set_rotation_witness :
    RealDisplayConfigTransaction.set_rotation
      ⟨[("X", 1)], [(1, Rotation.ninety)], false⟩ "X" Rotation.oneEighty =
      .error (.DuplicateConfiguration "X") :=
  real_set_rotation_rejects_duplicate ⟨[("X", 1)], [], false⟩
    ⟨[("X", 1)], [(1, Rotation.ninety)], false⟩ "X" Rotation.ninety Rotation.oneEighty
    (by decide)

/-- Claim C5: `select_mode` succeeds exactly when exactly one available mode
matches every constraint of the pattern, returning that unique match; zero
matches yield the no-matching-mode error and two or more the ambiguous-mode
error (carrying all candidates). -/
theorem select_mode_unique_match (display : FakeDisplay) (config : Config) :
    (∀ mode, select_mode display config = .ok mode ↔
      display.possible_modes.filter
        (fun m => m.match_pattern (mode_pattern_from_config config)) = [mode]) ∧
    (display.possible_modes.filter
        (fun m => m.match_pattern (mode_pattern_from_config config)) = [] →
      select_mode display config = .error (.NoMatchingDisplayMode display.uuid config)) ∧
    (1 < (display.possible_modes.filter
        (fun m => m.match_pattern (mode_pattern_from_config config))).length →
      select_mode display config = .error (.AmbiguousDisplayMode display.uuid
        (display.possible_modes.filter
          (fun m => m.match_pattern (mode_pattern_from_config config))))) := by
  have hrw : select_mode display config =
      (if (display.possible_modes.filter
            (fun m => m.match_pattern (mode_pattern_from_config config))).length > 1 then
        .error (.AmbiguousDisplayMode display.uuid
          (display.possible_modes.filter
            (fun m => m.match_pattern (mode_pattern_from_config config))))
      else
        match (display.possible_modes.filter
            (fun m => m.match_pattern (mode_pattern_from_config config))).getLast? with
        | some mode => .ok mode
        | none => .error (.NoMatchingDisplayMode display.uuid config)) := rfl
  rw [hrw]
  generalize (display.possible_modes.filter
      (fun m => m.match_pattern (mode_pattern_from_config config))) = ms
  match ms with
  | [] =>
    refine ⟨fun mode => ?_, fun _ => ?_, fun h => ?_⟩
    · simp [List.getLast?]
    · simp [List.getLast?]
    · simp at h
  | [a] =>
    refine ⟨fun mode => ?_, fun h => ?_, fun h => ?_⟩
    · simp only [List.length_singleton, gt_iff_lt, Nat.lt_irrefl, if_false,
        List.getLast?_singleton]
      constructor
      · intro h; cases h; rfl
      · intro h; cases h; rfl
    · simp at h
    · simp at h
  | a :: b :: rest =>
    have hlen : (a :: b :: rest).length > 1 := by
      simp only [List.length_cons]
      omega
    refine ⟨fun mode => ?_, fun h => ?_, fun _ => ?_⟩
    · rw [if_pos hlen]
      constructor
      · intro h; cases h
      · intro h; simp at h
    · simp at h
    · rw [if_pos hlen]

/-- Witness for claim C5: a display with exactly one mode matching the
configuration's pattern, for which `select_mode` returns that mode. -/
theorem select_mode_unique_match_witness :
    select_mode
      ⟨"d", none, true, ⟨0, 0⟩, Rotation.zero,
        ⟨"d", false, 24, 60, ⟨1920, 1080⟩⟩,
        [⟨"d", false, 24, 60, ⟨1920, 1080⟩⟩, ⟨"d", true, 24, 60, ⟨960, 540⟩⟩], none⟩
      { uuid := "d", scaled := some false } =
      .ok ⟨"d", false, 24, 60, ⟨1920, 1080⟩⟩ :=
  ((select_mode_unique_match
      ⟨"d", none, true, ⟨0, 0⟩, Rotation.zero,
        ⟨"d", false, 24, 60, ⟨1920, 1080⟩⟩,
        [⟨"d", false, 24, 60, ⟨1920, 1080⟩⟩, ⟨"d", true, 24, 60, ⟨960, 540⟩⟩], none⟩
      { uuid := "d", scaled := some false }).1
    ⟨"d", false, 24, 60, ⟨1920, 1080⟩⟩).mpr (by decide)

/-- Helper: a successful `assocFind` yields an element of the list. -/
theorem assocFind_mem {α β : Type} [DecidableEq α] {l : List (α × β)} {u : α} {v : β}
    (h : assocFind l u = some v) : (u, v) ∈ l := by
  induction l with
  | nil => simp [assocFind] at h
  | cons p rest ih =>
    obtain ⟨k, w⟩ := p
    rw [assocFind] at h
    split at h
    · next heq =>
      cases h
      subst heq
      exact List.mem_cons_self _ _
    · next hne =>
      exact List.mem_cons_of_mem _ (ih h)

/-- Helper: on a config list with pairwise distinct UUIDs and no invalid
mirror combination, the accumulation loop of `ValidConfigGroup::from` finds
no duplicates and builds the UUID-to-config map in order. -/
theorem fromLoop_clean (cs : List Config) (dups : Finset String)
    (acc : List (String × Config))
    (hm : ∀ c ∈ cs, c.invalidMirror = false)
    (hnodup : (cs.map Config.uuid).Nodup)
    (hdisj : ∀ c ∈ cs, assocFind acc c.uuid = none) :
    fromLoop cs dups acc = .ok (dups, acc ++ cs.map fun c => (c.uuid, c)) := by
  induction cs generalizing acc with
  | nil => simp [fromLoop]
  | cons c rest ih =>
    have hmc : c.invalidMirror = false := hm c (List.mem_cons_self c rest)
    have hdc : assocFind acc c.uuid = none := hdisj c (List.mem_cons_self c rest)
    rw [List.map_cons, List.nodup_cons] at hnodup
    have hm' : ∀ c' ∈ rest, c'.invalidMirror = false :=
      fun c' hc' => hm c' (List.mem_cons_of_mem _ hc')
    have hdisj' : ∀ c' ∈ rest, assocFind (acc ++ [(c.uuid, c)]) c'.uuid = none := by
      intro c' hc'
      rw [assocFind_append, hdisj c' (List.mem_cons_of_mem _ hc')]
      have hne : c.uuid ≠ c'.uuid := by
        intro hcc
        exact hnodup.1 (hcc ▸ List.mem_map_of_mem Config.uuid hc')
      simp [assocFind, hne]
    rw [show fromLoop (c :: rest) dups acc =
        (if c.invalidMirror then .error (.InvalidMirrorConfig c.uuid)
         else if (assocFind acc c.uuid).isSome then
           fromLoop rest (insert c.uuid dups) acc
         else fromLoop rest dups (acc ++ [(c.uuid, c)])) from rfl]
    rw [hmc, hdc]
    simp only [Bool.false_eq_true, if_false, Option.isSome_none]
    rw [ih (acc ++ [(c.uuid, c)]) hm' hnodup.2 hdisj']
    simp

/-- Helper: when no display mirrors a display that itself mirrors, the
mirror-of-mirror scan finds nothing. -/
theorem mirrorOfMirror_none (cs : List Config)
    (hmm : ∀ c ∈ cs, ∀ target ∈ c.mirror_of,
      ∀ c' ∈ cs, c'.uuid = target → c'.mirror_of = none) :
    mirrorOfMirror (cs.map fun c => (c.uuid, c)) = none := by
  rw [mirrorOfMirror, List.findSome?_eq_none_iff]
  intro p hp
  obtain ⟨c, hc, rfl⟩ := List.mem_map.mp hp
  cases hmo : c.mirror_of with
  | none => simp [hmo]
  | some target =>
    simp only [hmo]
    cases hfind : assocFind (cs.map fun c => (c.uuid, c)) target with
    | none => simp
    | some tc =>
      have hmem := assocFind_mem hfind
      obtain ⟨c', hc', heq⟩ := List.mem_map.mp hmem
      have h1 : c'.uuid = target := congrArg Prod.fst heq
      have h2 : c' = tc := congrArg Prod.snd heq
      have hmo' : tc.mirror_of = none :=
        h2 ▸ hmm c hc target (by simp [hmo]) c' hc' h1
      simp [hmo']

/-- Claim C3: a `ConfigGroup` with at least one config, pairwise distinct
UUIDs, no config combining `mirror_of` with geometry/mode/rotation options,
no mirror-of-mirror chain, and every set brightness in `[0, 1]` validates
successfully, and the resulting UUID set has exactly as many elements as
there are configs. -/
theorem validator_accepts_wellformed_group (cg : ConfigGroup)
    (hne : cg.configs ≠ [])
    (hnodup : (cg.configs.map Config.uuid).Nodup)
    (hm : ∀ c ∈ cg.configs, c.invalidMirror = false)
    (hmm : ∀ c ∈ cg.configs, ∀ target ∈ c.mirror_of,
      ∀ c' ∈ cg.configs, c'.uuid = target → c'.mirror_of = none)
    (hbr : ∀ c ∈ cg.configs, ∀ b ∈ c.brightness, 0 ≤ b ∧ b ≤ 1) :
    ∃ v, ValidConfigGroup.fromGroup cg = .ok v ∧
      v.uuids.card = cg.configs.length := by
  refine ⟨⟨((cg.configs.map fun c => (c.uuid, c)).map Prod.fst).toFinset,
           cg.configs.map fun c => (c.uuid, c)⟩, ?_, ?_⟩
  · rw [ValidConfigGroup.fromGroup,
      fromLoop_clean cg.configs ∅ [] hm hnodup (fun c _ => rfl)]
    simp only [List.nil_append]
    rw [if_neg (by simp)]
    rw [if_neg (by simpa using hne)]
    rw [mirrorOfMirror_none cg.configs hmm]
  · have hfst : (cg.configs.map fun c => (c.uuid, c)).map Prod.fst =
        cg.configs.map Config.uuid := by
      rw [List.map_map]
      rfl
    rw [hfst, List.toFinset_card_of_nodup hnodup, List.length_map]

/-- Witness for claim C3: a concrete two-config group (one display mirroring
the other) that validates with a two-element UUID set. -/
theorem validator_accepts_wellformed_group_witness :
    ∃ v, ValidConfigGroup.fromGroup
        ⟨[{ uuid := "a" },
          { uuid := "b", mirror_of := some "a", enabled := some true }]⟩ = .ok v ∧
      v.uuids.card =
        (ConfigGroup.configs ⟨[{ uuid := "a" },
          { uuid := "b", mirror_of := some "a", enabled := some true }]⟩).length :=
  validator_accepts_wellformed_group
    ⟨[{ uuid := "a" }, { uuid := "b", mirror_of := some "a", enabled := some true }]⟩
    (by decide) (by decide) (by decide) (by decide) (by decide)

/-- Claim C4 counterexample: an input whose only config carries the
out-of-range brightness `2` is accepted by the validator, which has no
invalid-brightness error at all. -/
theorem validator_accepts_out_of_range_brightness :
    validate_config_groups ⟨[⟨[{ uuid := "a", brightness := some 2 }]⟩]⟩ =
      .ok [⟨{"a"}, [("a", { uuid := "a", brightness := some 2 })]⟩] := by
  have h1 : validate_config_groups ⟨[⟨[{ uuid := "a", brightness := some 2 }]⟩]⟩ =
      .ok (sortVCG [⟨(["a"] : List String).toFinset,
        [("a", { uuid := "a", brightness := some 2 })]⟩]) := rfl
  rw [h1, sortVCG, List.mergeSort_singleton]
  decide

/-- Claim C4 amended: the validator performs no brightness-range check (it
accepts a config with any brightness value); the range is enforced at the
transaction interface, whose `set_brightness` rejects out-of-range values
with `InvalidBrightness`. -/
theorem validator_ignores_brightness :
    (∀ b : Rat,
      (validate_config_groups ⟨[⟨[{ uuid := "a", brightness := some b }]⟩]⟩).isOk = true) ∧
    (∀ b : Rat, (b < 0 ∨ b > 1) →
      FakeDisplayConfigTransaction.set_brightness ⟨false, [("a", [])]⟩ "a" b =
        .error (.InvalidBrightness b)) := by
  constructor
  · intro b
    rfl
  · intro b hb
    simp [FakeDisplayConfigTransaction.set_brightness, hb]

/-- Witness for the amended claim C4 at the out-of-range brightness `2`. -/
theorem validator_ignores_brightness_witness :
    FakeDisplayConfigTransaction.set_brightness ⟨false, [("a", [])]⟩ "a" 2 =
      .error (.InvalidBrightness 2) :=
  validator_ignores_brightness.2 2 (Or.inr (by norm_num))

/-- Helper: a feasible member's size is bounded by the best feasible size. -/
theorem bestFeasibleLen_le {attached : Finset String} {g : ValidConfigGroup}
    {l : List ValidConfigGroup} (hg : g ∈ l) (hfeas : g.uuids ⊆ attached) :
    g.uuids.card ≤ bestFeasibleLen attached l := by
  induction l with
  | nil => cases hg
  | cons h t ih =>
    rw [bestFeasibleLen]
    rcases List.mem_cons.mp hg with rfl | hg'
    · rw [if_pos (by simp [feasibleB, hfeas])]
      exact Nat.le_max_left _ _
    · by_cases hf : feasibleB attached h
      · rw [if_pos hf]
        exact le_trans (ih hg') (Nat.le_max_right _ _)
      · rw [if_neg hf]
        exact ih hg'

/-- Helper: `Nat.max` equals its left argument when that one dominates. -/
theorem natMaxEqLeft {a b : Nat} (h : b ≤ a) : Nat.max a b = a :=
  Nat.le_antisymm (Nat.max_le.mpr ⟨Nat.le_refl a, h⟩) (Nat.le_max_left a b)

/-- Helper: `Nat.max` equals its right argument when that one dominates. -/
theorem natMaxEqRight {a b : Nat} (h : a ≤ b) : Nat.max a b = b :=
  Nat.le_antisymm (Nat.max_le.mpr ⟨h, Nat.le_refl b⟩) (Nat.le_max_right a b)

/-- Helper: `Nat.max` is below any common upper bound. -/
theorem natMaxLe {a b c : Nat} (h1 : a ≤ c) (h2 : b ≤ c) : Nat.max a b ≤ c :=
  Nat.max_le.mpr ⟨h1, h2⟩

/-- Helper: the left argument is below `Nat.max`. -/
theorem natLeMaxLeft (a b : Nat) : a ≤ Nat.max a b :=
  Nat.le_max_left a b

/-- Helper: the right argument is below `Nat.max`. -/
theorem natLeMaxRight (a b : Nat) : b ≤ Nat.max a b :=
  Nat.le_max_right a b

/-- Helper: a nonzero best feasible size is attained by some feasible group. -/
theorem bestFeasibleLen_exists {attached : Finset String} {l : List ValidConfigGroup}
    (h : bestFeasibleLen attached l ≠ 0) :
    ∃ g ∈ l, feasibleB attached g = true ∧
      g.uuids.card = bestFeasibleLen attached l := by
  induction l with
  | nil => simp [bestFeasibleLen] at h
  | cons g t ih =>
    rw [bestFeasibleLen] at h ⊢
    by_cases hf : feasibleB attached g
    · rw [if_pos hf] at h ⊢
      by_cases hcmp : bestFeasibleLen attached t ≤ g.uuids.card
      · rw [natMaxEqLeft hcmp]
        exact ⟨g, List.mem_cons_self _ _, hf, rfl⟩
      · rw [natMaxEqRight (le_of_not_le hcmp)]
        have h2 : bestFeasibleLen attached t ≠ 0 := by
          rw [natMaxEqRight (le_of_not_le hcmp)] at h
          exact h
        obtain ⟨g', hg', hf', hc'⟩ := ih h2
        exact ⟨g', List.mem_cons_of_mem _ hg', hf', hc'⟩
    · rw [if_neg hf] at h ⊢
      obtain ⟨g', hg', hf', hc'⟩ := ih h
      exact ⟨g', List.mem_cons_of_mem _ hg', hf', hc'⟩

/-- Helper: with nonempty UUID sets, the best feasible size is zero exactly
when no group is feasible. -/
theorem bestFeasibleLen_eq_zero {attached : Finset String} {l : List ValidConfigGroup}
    (hne : ∀ g ∈ l, g.uuids.Nonempty) :
    bestFeasibleLen attached l = 0 ↔ ∀ g ∈ l, ¬ g.uuids ⊆ attached := by
  constructor
  · intro h0 g hg hsub
    have h1 := bestFeasibleLen_le hg hsub
    have h2 := Finset.card_pos.mpr (hne g hg)
    omega
  · intro hno
    induction l with
    | nil => rfl
    | cons g t ih =>
      rw [bestFeasibleLen,
        if_neg (by simp [feasibleB]; exact hno g (List.mem_cons_self _ _))]
      exact ih (fun g' hg' => hne g' (List.mem_cons_of_mem _ hg'))
        (fun g' hg' => hno g' (List.mem_cons_of_mem _ hg'))

/-- Helper: closed form of the resolver loop.  Starting from an accumulator
`(m, b)` (with `m` empty whenever `b = 0`), on groups with nonempty UUID
sets the loop keeps exactly the feasible groups of maximal size, together
with that size. -/
theorem fmpLoop_spec (attached : Finset String) (l : List ValidConfigGroup) :
    ∀ (m : List ValidConfigGroup) (b : Nat),
      (∀ g ∈ l, g.uuids.Nonempty) → (b = 0 → m = []) →
      fmpLoop attached l (m, b) =
        (if bestFeasibleLen attached l ≤ b then m ++ maxFeasibles attached b l
         else maxFeasibles attached (bestFeasibleLen attached l) l,
         Nat.max b (bestFeasibleLen attached l)) := by
  induction l with
  | nil =>
    intro m b hne hb
    simp [fmpLoop, bestFeasibleLen, maxFeasibles]
  | cons g rest ih =>
    intro m b hne hb
    have hne' : ∀ g' ∈ rest, g'.uuids.Nonempty :=
      fun g' hg' => hne g' (List.mem_cons_of_mem _ hg')
    have hunfold : fmpLoop attached (g :: rest) (m, b) =
        (if g.uuids.card ≤ attached.card ∧ b ≤ g.uuids.card ∧ g.uuids ⊆ attached then
          (if b < g.uuids.card then fmpLoop attached rest ([g], g.uuids.card)
           else fmpLoop attached rest (m ++ [g], b))
         else fmpLoop attached rest (m, b)) := rfl
    by_cases hfeas : g.uuids ⊆ attached
    · have hfb : feasibleB attached g = true := by simp [feasibleB, hfeas]
      have hcard : g.uuids.card ≤ attached.card := Finset.card_le_card hfeas
      have hBcons : bestFeasibleLen attached (g :: rest) =
          Nat.max g.uuids.card (bestFeasibleLen attached rest) := by
        rw [bestFeasibleLen, if_pos hfb]
      have hMcons : ∀ k, maxFeasibles attached k (g :: rest) =
          if g.uuids.card = k then g :: maxFeasibles attached k rest
          else maxFeasibles attached k rest := by
        intro k
        simp only [maxFeasibles, List.filter_cons, hfb, Bool.true_and]
        by_cases h : g.uuids.card = k
        · simp [h]
        · simp [h]
      have hgpos : 0 < g.uuids.card :=
        Finset.card_pos.mpr (hne g (List.mem_cons_self _ _))
      rcases Nat.lt_trichotomy g.uuids.card b with hlt | heq | hgt
      · have hC : ¬(g.uuids.card ≤ attached.card ∧ b ≤ g.uuids.card ∧
            g.uuids ⊆ attached) := fun hh => absurd hh.2.1 (by omega)
        rw [hunfold, if_neg hC, ih m b hne' hb, hBcons]
        by_cases hbr : bestFeasibleLen attached rest ≤ b
        · rw [if_pos hbr, if_pos (natMaxLe (Nat.le_of_lt hlt) hbr),
            hMcons b, if_neg (by omega)]
          congr 1
          rw [natMaxEqLeft hbr, natMaxEqLeft (natMaxLe (Nat.le_of_lt hlt) hbr)]
        · have hcB : g.uuids.card ≤ bestFeasibleLen attached rest :=
            le_of_lt (lt_of_lt_of_le hlt (le_of_not_le hbr))
          rw [if_neg hbr,
            if_neg (fun hmle => hbr (le_trans (natLeMaxRight _ _) hmle)),
            natMaxEqRight hcB,
            hMcons, if_neg (by omega)]
      · subst heq
        have hC : g.uuids.card ≤ attached.card ∧ g.uuids.card ≤ g.uuids.card ∧
            g.uuids ⊆ attached := ⟨hcard, le_refl _, hfeas⟩
        rw [hunfold, if_pos hC, if_neg (lt_irrefl _),
          ih (m ++ [g]) g.uuids.card hne' (fun h0 => absurd h0 (by omega)), hBcons]
        by_cases hbr : bestFeasibleLen attached rest ≤ g.uuids.card
        · rw [if_pos hbr, if_pos (natMaxLe (Nat.le_refl _) hbr),
            hMcons g.uuids.card, if_pos rfl]
          congr 1
          · simp
          · rw [natMaxEqLeft hbr, natMaxEqLeft (Nat.le_refl _)]
        · have hcB : g.uuids.card ≤ bestFeasibleLen attached rest := le_of_not_le hbr
          rw [if_neg hbr,
            if_neg (fun hmle => hbr (le_trans (natLeMaxRight _ _) hmle)),
            natMaxEqRight hcB,
            hMcons, if_neg (fun hcc => hbr (le_of_eq hcc.symm))]
          congr 1
          rw [natMaxEqRight hcB]
      · have hC : g.uuids.card ≤ attached.card ∧ b ≤ g.uuids.card ∧
            g.uuids ⊆ attached := ⟨hcard, le_of_lt hgt, hfeas⟩
        rw [hunfold, if_pos hC, if_pos hgt,
          ih [g] g.uuids.card hne' (fun h0 => absurd h0 (by omega)), hBcons]
        by_cases hbr : bestFeasibleLen attached rest ≤ g.uuids.card
        · rw [if_pos hbr,
            if_neg (fun hmle : Nat.max g.uuids.card (bestFeasibleLen attached rest) ≤ b =>
              absurd (le_trans (natLeMaxLeft _ _) hmle) (by omega)),
            natMaxEqLeft hbr,
            hMcons g.uuids.card, if_pos rfl]
          congr 1
          rw [natMaxEqRight (Nat.le_of_lt hgt)]
        · have hcB : g.uuids.card ≤ bestFeasibleLen attached rest := le_of_not_le hbr
          rw [if_neg hbr,
            if_neg (fun hmle : Nat.max g.uuids.card (bestFeasibleLen attached rest) ≤ b =>
              absurd (le_trans (natLeMaxLeft _ _) hmle) (by omega)),
            natMaxEqRight hcB,
            hMcons, if_neg (by omega)]
          congr 1
          rw [natMaxEqRight (Nat.le_trans (Nat.le_of_lt hgt) hcB)]
    · have hfb : feasibleB attached g = false := by simp [feasibleB, hfeas]
      have hC : ¬(g.uuids.card ≤ attached.card ∧ b ≤ g.uuids.card ∧
          g.uuids ⊆ attached) := fun hh => hfeas hh.2.2
      have hBcons : bestFeasibleLen attached (g :: rest) =
          bestFeasibleLen attached rest := by
        rw [bestFeasibleLen, if_neg (by simp [hfb])]
      have hMcons : ∀ k, maxFeasibles attached k (g :: rest) =
          maxFeasibles attached k rest := by
        intro k
        simp [maxFeasibles, List.filter_cons, hfb]
      rw [hunfold, if_neg hC, ih m b hne' hb, hBcons, hMcons, hMcons]

/-- Helper: the resolver loop started from the empty accumulator returns the
maximal feasible groups and the best feasible size. -/
theorem fmpLoop_closed (attached : Finset String) (l : List ValidConfigGroup)
    (hne : ∀ g ∈ l, g.uuids.Nonempty) :
    fmpLoop attached l ([], 0) =
      (maxFeasibles attached (bestFeasibleLen attached l) l,
       bestFeasibleLen attached l) := by
  rw [fmpLoop_spec attached l [] 0 hne (fun _ => rfl)]
  by_cases hb : bestFeasibleLen attached l ≤ 0
  · rw [if_pos hb]
    have h0 : bestFeasibleLen attached l = 0 := by omega
    rw [h0]
    simp
  · rw [if_neg hb]
    congr 1
    exact natMaxEqRight (Nat.zero_le _)

/-- Helper: `find_most_precise_config_group` in terms of the best feasible
size and the maximal feasible groups. -/
theorem find_closed_form (vcgs : List ValidConfigGroup) (attached : Finset String)
    (hne : ∀ g ∈ vcgs, g.uuids.Nonempty) :
    find_most_precise_config_group vcgs attached =
      (if bestFeasibleLen attached vcgs = 0 then
        .error (.NoMatchingConfigGroup (attached.sort (· ≤ ·)))
      else if (maxFeasibles attached (bestFeasibleLen attached vcgs) vcgs).length > 1 then
        .error (.AmbiguousConfigGroup
          ((maxFeasibles attached (bestFeasibleLen attached vcgs) vcgs).map
            fun vcg => vcg.configs.map Prod.snd))
      else
        match (maxFeasibles attached (bestFeasibleLen attached vcgs) vcgs).getLast? with
        | some vcg => .ok vcg
        | none => .error .UnwrapPanic) := by
  rw [show find_most_precise_config_group vcgs attached =
      (if (fmpLoop attached vcgs ([], 0)).2 = 0 then
        .error (.NoMatchingConfigGroup (attached.sort (· ≤ ·)))
      else if (fmpLoop attached vcgs ([], 0)).1.length > 1 then
        .error (.AmbiguousConfigGroup
          ((fmpLoop attached vcgs ([], 0)).1.map fun vcg => vcg.configs.map Prod.snd))
      else
        match (fmpLoop attached vcgs ([], 0)).1.getLast? with
        | some vcg => .ok vcg
        | none => .error .UnwrapPanic) from rfl,
    fmpLoop_closed attached vcgs hne]

/-- Claim C1: a group is feasible iff all its UUIDs are attached, and when
exactly one feasible group attains the maximal UUID-set size,
`find_most_precise_config_group` returns that group. -/
theorem resolver_returns_unique_most_precise (vcgs : List ValidConfigGroup)
    (attached : Finset String) (g0 : ValidConfigGroup)
    (hne : ∀ g ∈ vcgs, g.uuids.Nonempty)
    (hmem : g0 ∈ vcgs) (hfeas : g0.uuids ⊆ attached)
    (hmax : ∀ g ∈ vcgs, g.uuids ⊆ attached → g.uuids.card ≤ g0.uuids.card)
    (huniq : (vcgs.filter fun g =>
        feasibleB attached g && (g.uuids.card == g0.uuids.card)).length ≤ 1) :
    find_most_precise_config_group vcgs attached = .ok g0 := by
  have hBle : g0.uuids.card ≤ bestFeasibleLen attached vcgs :=
    bestFeasibleLen_le hmem hfeas
  have hg0pos : 0 < g0.uuids.card := Finset.card_pos.mpr (hne g0 hmem)
  have hB0 : ¬ bestFeasibleLen attached vcgs = 0 := by omega
  obtain ⟨g', hg', hf', hc'⟩ := bestFeasibleLen_exists hB0
  have hge : bestFeasibleLen attached vcgs ≤ g0.uuids.card := by
    rw [← hc']
    exact hmax g' hg' (by simpa [feasibleB] using hf')
  have hBeq : bestFeasibleLen attached vcgs = g0.uuids.card := le_antisymm hge hBle
  have hg0M : g0 ∈ maxFeasibles attached (bestFeasibleLen attached vcgs) vcgs := by
    rw [maxFeasibles, List.mem_filter]
    refine ⟨hmem, ?_⟩
    simp [feasibleB, hfeas, hBeq]
  have hMuniq : (maxFeasibles attached (bestFeasibleLen attached vcgs) vcgs).length ≤ 1 := by
    rw [maxFeasibles, hBeq]
    exact huniq
  have hMeq : maxFeasibles attached (bestFeasibleLen attached vcgs) vcgs = [g0] := by
    cases hM : maxFeasibles attached (bestFeasibleLen attached vcgs) vcgs with
    | nil => rw [hM] at hg0M; cases hg0M
    | cons a t =>
      cases t with
      | nil =>
        rw [hM] at hg0M
        rcases List.mem_singleton.mp hg0M with rfl
        rfl
      | cons a2 t2 =>
        rw [hM] at hMuniq
        simp at hMuniq
  rw [find_closed_form vcgs attached hne, hMeq, if_neg hB0,
    if_neg (by norm_num : ¬ ([g0].length > 1)), List.getLast?_singleton]

/-- Witness for claim C1: with displays `{a, b, c}` attached, the feasible
group naming `{a, b, c}` wins over the feasible group naming only `{a, b}`. -/
theorem resolver_returns_unique_most_precise_witness :
    find_most_precise_config_group
        [⟨{"a", "b"}, []⟩, ⟨{"a", "b", "c"}, []⟩] ({"a", "b", "c"} : Finset String) =
      .ok ⟨{"a", "b", "c"}, []⟩ :=
  resolver_returns_unique_most_precise
    [⟨{"a", "b"}, []⟩, ⟨{"a", "b", "c"}, []⟩] {"a", "b", "c"} ⟨{"a", "b", "c"}, []⟩
    (by decide) (by decide) (by decide) (by decide) (by decide)

/-- Claim C2: the resolver fails in exactly two cases: with no feasible
group it reports the no-matching-group error listing the attached UUIDs, and
with more than one feasible group of maximal size it reports the
ambiguous-group error enumerating those groups. -/
theorem resolver_error_cases (vcgs : List ValidConfigGroup) (attached : Finset String)
    (hne : ∀ g ∈ vcgs, g.uuids.Nonempty) :
    (find_most_precise_config_group vcgs attached =
        .error (.NoMatchingConfigGroup (attached.sort (· ≤ ·))) ↔
      ∀ g ∈ vcgs, ¬ g.uuids ⊆ attached) ∧
    (find_most_precise_config_group vcgs attached =
        .error (.AmbiguousConfigGroup
          ((maxFeasibles attached (bestFeasibleLen attached vcgs) vcgs).map
            fun vcg => vcg.configs.map Prod.snd)) ↔
      1 < (maxFeasibles attached (bestFeasibleLen attached vcgs) vcgs).length) ∧
    ((∃ e, find_most_precise_config_group vcgs attached = .error e) ↔
      ((∀ g ∈ vcgs, ¬ g.uuids ⊆ attached) ∨
        1 < (maxFeasibles attached (bestFeasibleLen attached vcgs) vcgs).length)) := by
  rw [find_closed_form vcgs attached hne]
  by_cases hB : bestFeasibleLen attached vcgs = 0
  · have hnofeas : ∀ g ∈ vcgs, ¬ g.uuids ⊆ attached :=
      (bestFeasibleLen_eq_zero hne).mp hB
    have hMnil : maxFeasibles attached (bestFeasibleLen attached vcgs) vcgs = [] := by
      rw [maxFeasibles]
      refine List.filter_eq_nil_iff.mpr (fun g hg => ?_)
      simp [feasibleB, hnofeas g hg]
    rw [if_pos hB, hMnil]
    refine ⟨iff_of_true rfl hnofeas, ?_, iff_of_true ⟨_, rfl⟩ (Or.inl hnofeas)⟩
    exact iff_of_false (by simp) (by simp)
  · obtain ⟨g', hg', hf', hc'⟩ := bestFeasibleLen_exists hB
    have hfeas' : g'.uuids ⊆ attached := by simpa [feasibleB] using hf'
    have hnotall : ¬ ∀ g ∈ vcgs, ¬ g.uuids ⊆ attached :=
      fun hall => hall g' hg' hfeas'
    have hg'M : g' ∈ maxFeasibles attached (bestFeasibleLen attached vcgs) vcgs := by
      rw [maxFeasibles, List.mem_filter]
      exact ⟨hg', by simp [hf', hc']⟩
    rw [if_neg hB]
    by_cases hlen : (maxFeasibles attached (bestFeasibleLen attached vcgs) vcgs).length > 1
    · rw [if_pos hlen]
      refine ⟨iff_of_false (by simp) hnotall, iff_of_true rfl hlen,
        iff_of_true ⟨_, rfl⟩ (Or.inr hlen)⟩
    · have hMeq : maxFeasibles attached (bestFeasibleLen attached vcgs) vcgs = [g'] := by
        cases hM : maxFeasibles attached (bestFeasibleLen attached vcgs) vcgs with
        | nil => rw [hM] at hg'M; cases hg'M
        | cons a t =>
          cases t with
          | nil =>
            rw [hM] at hg'M
            rcases List.mem_singleton.mp hg'M with rfl
            rfl
          | cons a2 t2 =>
            rw [hM] at hlen
            simp at hlen
      rw [if_neg hlen, hMeq, List.getLast?_singleton]
      refine ⟨iff_of_false (by simp) hnotall,
        iff_of_false (by simp) (by simp), ?_⟩
      refine iff_of_false ?_ ?_
      · rintro ⟨e, he⟩
        cases he
      · rintro (hall | hlen')
        · exact hnotall hall
        · simp at hlen'

/-- Witness for claim C2: with displays `{A, B}` attached and the candidate
groups `{A}` and `{B}` (both feasible, both of size 1), resolution fails
with the ambiguous-group error. -/
theorem resolver_error_cases_witness :
    find_most_precise_config_group
        [⟨{"A"}, []⟩, ⟨{"B"}, []⟩] ({"A", "B"} : Finset String) =
      .error (.AmbiguousConfigGroup
        ((maxFeasibles {"A", "B"}
            (bestFeasibleLen {"A", "B"} [⟨{"A"}, []⟩, ⟨{"B"}, []⟩])
            [⟨{"A"}, []⟩, ⟨{"B"}, []⟩]).map fun vcg => vcg.configs.map Prod.snd)) :=
  (resolver_error_cases [⟨{"A"}, []⟩, ⟨{"B"}, []⟩] {"A", "B"} (by decide)).2.1.mpr
    (by decide)

/-- Helper: the sort comparison derived from `partial_cmp` is exactly
descending UUID-set size (strict superset agrees with larger size, and the
incomparable tie-break already compares sizes). -/
theorem vcgCompare_ne_gt (a b : ValidConfigGroup) :
    ((vcgCompare a b != Ordering.gt) = true) ↔ b.uuids.card ≤ a.uuids.card := by
  rw [vcgCompare]
  by_cases h1 : b.uuids ⊆ a.uuids
  · rw [if_pos h1]
    by_cases h2 : a.uuids ⊆ b.uuids
    · rw [if_pos h2]
      exact iff_of_true (by decide) (Finset.card_le_card h1)
    · rw [if_neg h2]
      exact iff_of_true (by decide) (Finset.card_le_card h1)
  · rw [if_neg h1]
    by_cases h2 : a.uuids ⊆ b.uuids
    · rw [if_pos h2]
      have hlt : a.uuids.card < b.uuids.card :=
        Finset.card_lt_card (ssubset_iff_subset_not_subset.mpr ⟨h2, h1⟩)
      exact iff_of_false (by decide) (by omega)
    · rw [if_neg h2]
      rcases Nat.lt_trichotomy a.uuids.card b.uuids.card with hc | hc | hc
      · rw [Nat.compare_eq_gt.mpr hc]
        exact iff_of_false (by decide) (by omega)
      · rw [show compare b.uuids.card a.uuids.card = Ordering.eq from
          Nat.compare_eq_eq.mpr hc.symm]
        exact iff_of_true (by decide) (by omega)
      · rw [show compare b.uuids.card a.uuids.card = Ordering.lt from
          Nat.compare_eq_lt.mpr hc]
        exact iff_of_true (by decide) (by omega)

/-- Claim C6: when validation succeeds, the returned groups are sorted by
the precision order: a group whose UUID set strictly contains a later
group's set always comes first, and all pairs appear in (weakly) descending
UUID-set size. -/
theorem validated_groups_sorted_by_precision (cgs : ConfigGroups)
    (l : List ValidConfigGroup)
    (h : validate_config_groups cgs = .ok l) :
    l.Pairwise (fun a b => b.uuids.card ≤ a.uuids.card ∧ ¬ a.uuids ⊂ b.uuids) := by
  have hl : ∃ vg, l = sortVCG vg := by
    rw [validate_config_groups] at h
    split at h
    · cases h
    · split at h
      · cases h
      · cases h
        exact ⟨_, rfl⟩
  obtain ⟨vg, rfl⟩ := hl
  have htrans : ∀ (a b c : ValidConfigGroup),
      (vcgCompare a b != Ordering.gt) = true →
      (vcgCompare b c != Ordering.gt) = true →
      (vcgCompare a c != Ordering.gt) = true := by
    intro a b c hab hbc
    rw [vcgCompare_ne_gt] at hab hbc ⊢
    omega
  have htotal : ∀ (a b : ValidConfigGroup),
      ((vcgCompare a b != Ordering.gt) || (vcgCompare b a != Ordering.gt)) = true := by
    intro a b
    rw [Bool.or_eq_true]
    rcases Nat.le_total b.uuids.card a.uuids.card with hc | hc
    · exact Or.inl ((vcgCompare_ne_gt a b).mpr hc)
    · exact Or.inr ((vcgCompare_ne_gt b a).mpr hc)
  have hsorted := List.sorted_mergeSort htrans htotal vg
  rw [sortVCG]
  refine hsorted.imp (fun hab => ?_)
  have hcard := (vcgCompare_ne_gt _ _).mp hab
  exact ⟨hcard, fun hss => absurd (Finset.card_lt_card hss) (by omega)⟩

/-- Witness for claim C6: validating the groups `[{a}, {a, b}]` returns them
re-sorted with the more precise `{a, b}` scene first, and the result is
pairwise ordered by the precision order. -/
theorem validated_groups_sorted_witness :
    List.Pairwise (fun a b : ValidConfigGroup =>
        b.uuids.card ≤ a.uuids.card ∧ ¬ a.uuids ⊂ b.uuids)
      [⟨({"a", "b"} : Finset String),
          [("a", { uuid := "a" }), ("b", { uuid := "b" })]⟩,
       ⟨({"a"} : Finset String), [("a", { uuid := "a" })]⟩] :=
  validated_groups_sorted_by_precision
    ⟨[⟨[{ uuid := "a" }]⟩, ⟨[{ uuid := "a" }, { uuid := "b" }]⟩]⟩
    [⟨({"a", "b"} : Finset String),
        [("a", { uuid := "a" }), ("b", { uuid := "b" })]⟩,
     ⟨({"a"} : Finset String), [("a", { uuid := "a" })]⟩]
    (by
      rw [show validate_config_groups
            ⟨[⟨[{ uuid := "a" }]⟩, ⟨[{ uuid := "a" }, { uuid := "b" }]⟩]⟩ =
          .ok (sortVCG
            [⟨(["a"] : List String).toFinset, [("a", { uuid := "a" })]⟩,
             ⟨(["a", "b"] : List String).toFinset,
                [("a", { uuid := "a" }), ("b", { uuid := "b" })]⟩]) from rfl,
        sortVCG, List.mergeSort]
      simp [List.splitInTwo, List.mergeSort_singleton, List.merge]
      decide)
